import Mathlib

/-!
Shallow embedding of the background job-processing core of the repository:
the queue service (src/services/queue-service.ts) and the AI generation
client (the AIService class). Persistent rows (queue jobs, generation
records) are modelled as lists of structures; Prisma queries become list
operations; the clock is an explicit `Nat` of epoch milliseconds; thrown
JavaScript errors become `Except` / `Option String` results. The external
AI provider is abstracted as an explicit outcome parameter, since its
behaviour is a network effect outside the repository.
-/

namespace NocodeAI

/-- A row of the `queueJob` table. Field names follow the source
(queue-service.ts and the Prisma accesses in it). Times are epoch
milliseconds; `id` is the unique row id. -/
structure Job where
  id : Nat
  type : String
  payloadGenerationId : Nat
  payloadPrompt : String
  status : String
  priority : Int
  attempts : Nat
  maxAttempts : Nat
  scheduledFor : Nat
  startedAt : Option Nat
  completedAt : Option Nat
  error : Option String
  createdAt : Nat
  deriving Repr, DecidableEq

/-- A row of the `generation` table (the Result Record a generation job's
payload references, written by `handleAIGeneration`). -/
structure Generation where
  id : Nat
  status : String
  result : Option String
  tokensUsed : Option Nat
  completedAt : Option Nat
  deriving Repr, DecidableEq

/-- The in-memory state of one `QueueService` worker process plus the
shared persistent tables it reads and writes: `processing` and
`processedJobs` mirror the instance fields of the class, `jobs` and
`gens` mirror the store. -/
structure QState where
  jobs : List Job
  gens : List Generation
  processing : Bool
  processedJobs : List Nat
  failedJobsCache : List (Nat × String × Nat)
  deriving Repr, DecidableEq

/-- Eligibility filter of the `findFirst` query in `processNextJob`:
`status: "pending", scheduledFor: { lte: new Date() }`. -/
def eligible (now : Nat) (j : Job) : Bool :=
  j.status == "pending" && decide (j.scheduledFor ≤ now)

/-- `a` sorts strictly before `b` under
`orderBy: [{ priority: "desc" }, { createdAt: "asc" }]`. -/
def precedes (a b : Job) : Bool :=
  decide (b.priority < a.priority) ||
    (a.priority == b.priority && decide (a.createdAt < b.createdAt))

/-- First row of a list under the sort order, stable on ties (the earlier
row wins), as `findFirst` with the `orderBy` above returns. -/
def pickBest : List Job → Option Job
  | [] => none
  | j :: rest =>
    match pickBest rest with
    | none => some j
    | some b => if precedes b j then some b else some j

/-- The `prisma.queueJob.findFirst` call of `processNextJob`
(queue-service.ts:62-68): the first `pending` job with
`scheduledFor ≤ now` under priority-desc, createdAt-asc order. -/
def findNextPending (jobs : List Job) (now : Nat) : Option Job :=
  pickBest (jobs.filter (eligible now))

/-- `prisma.queueJob.update({ where: { id }, data: ... })`: rewrite the
row(s) carrying `id` with `f`. -/
def updateJob (jobs : List Job) (id : Nat) (f : Job → Job) : List Job :=
  jobs.map fun j => if j.id = id then f j else j

/-- `prisma.queueJob.findUnique({ where: { id } })`. -/
def getJob (jobs : List Job) (id : Nat) : Option Job :=
  jobs.find? fun j => j.id == id

/-- `prisma.generation.update({ where: { id }, data: ... })`. -/
def updateGen (gens : List Generation) (id : Nat) (f : Generation → Generation) :
    List Generation :=
  gens.map fun g => if g.id = id then f g else g

/-- `prisma.generation.findUnique`-style lookup, used to state what a
handler wrote. -/
def getGen (gens : List Generation) (id : Nat) : Option Generation :=
  gens.find? fun g => g.id == id

/-- Outcome of one call to the external AI provider through `AIService`
during job execution: the resolved value of `generateComponent` /
`improveCode` / `validateComponent`, or the thrown error's message. -/
inductive AIOutcome where
  | success (code : String) (tokensUsed : Nat)
  | failure (msg : String)
  deriving Repr, DecidableEq

/-- `handleAIGeneration` (queue-service.ts:166-192): destructures
`{ generationId, prompt }` from the payload; on provider success updates
the generation row to completed with the code and token count; on a
thrown error updates it to failed and rethrows (the returned
`Option String` is the rethrown error message). -/
def handleAIGeneration (out : AIOutcome) (now : Nat) (gens : List Generation)
    (job : Job) : List Generation × Option String :=
  match out with
  | .success code tokens =>
    (updateGen gens job.payloadGenerationId fun g =>
      { g with status := "completed", result := some code,
               tokensUsed := some tokens, completedAt := some now }, none)
  | .failure msg =>
    (updateGen gens job.payloadGenerationId fun g =>
      { g with status := "failed", completedAt := some now }, some msg)

/-- `executeJob` (queue-service.ts:149-164): dispatch on `job.type`.
`ai_improvement` and `ai_validation` call the provider and rethrow its
errors; their success path writes to the `component` table, which no
claim observes and which is therefore not carried in the state. The
`default` branch only logs `"Unknown job type:"` and returns normally,
throwing nothing. -/
def executeJob (out : AIOutcome) (now : Nat) (gens : List Generation)
    (job : Job) : List Generation × Option String :=
  if job.type = "ai_generation" then
    handleAIGeneration out now gens job
  else if job.type = "ai_improvement" || job.type = "ai_validation" then
    match out with
    | .success _ _ => (gens, none)
    | .failure msg => (gens, some msg)
  else
    (gens, none)

/-- One invocation of `processNextJob` (queue-service.ts:53-147), with
the provider outcome `out` and the tick's clock `now` explicit. It
returns early when `processing` is set, when no eligible job exists, or
when the selected job's id is already in `processedJobs`; otherwise it
marks the job processing, records the id, executes, and writes the
completed / retry-pending / failed outcome. The retry delay is the
source's literal `Date.now() + 5000`. -/
def processNextJob (out : AIOutcome) (now : Nat) (st : QState) : QState :=
  if st.processing then st
  else
    match findNextPending st.jobs now with
    | none => { st with processing := false }
    | some job =>
      if st.processedJobs.contains job.id then { st with processing := false }
      else
        let jobs1 := updateJob st.jobs job.id fun j =>
          { j with status := "processing", startedAt := some now }
        let processed1 := job.id :: st.processedJobs
        match executeJob out now st.gens job with
        | (gens1, none) =>
          { jobs := updateJob jobs1 job.id fun j =>
              { j with status := "completed", completedAt := some now },
            gens := gens1, processing := false,
            processedJobs := processed1,
            failedJobsCache := st.failedJobsCache }
        | (gens1, some msg) =>
          let cache1 := st.failedJobsCache ++ [(job.id, msg, now)]
          if job.attempts + 1 < job.maxAttempts then
            { jobs := updateJob jobs1 job.id fun j =>
                { j with status := "pending", attempts := job.attempts + 1,
                         error := some msg, scheduledFor := now + 5000 },
              gens := gens1, processing := false,
              processedJobs := processed1, failedJobsCache := cache1 }
          else
            { jobs := updateJob jobs1 job.id fun j =>
                { j with status := "failed", attempts := job.attempts + 1,
                         error := some msg, completedAt := some now },
              gens := gens1, processing := false,
              processedJobs := processed1, failedJobsCache := cache1 }

/-- `addJob` (queue-service.ts:32-45): insert a new pending row with
`attempts = 0` and `scheduledFor = now`. The row id and the schema-default
`maxAttempts` are supplied by the store and appear as parameters. -/
def addJob (st : QState) (type : String) (genId : Nat) (prompt : String)
    (priority : Int) (newId : Nat) (maxAtt : Nat) (now : Nat) : QState :=
  { st with jobs := st.jobs ++ [{
      id := newId, type := type, payloadGenerationId := genId,
      payloadPrompt := prompt, status := "pending", priority := priority,
      attempts := 0, maxAttempts := maxAtt, scheduledFor := now,
      startedAt := none, completedAt := none, error := none,
      createdAt := now }] }

/-- `retryJob` (queue-service.ts:279-303): throws
`"Job not found or not in failed state"` unless the row exists with
status `failed`; otherwise resets it to pending with `attempts = 0`,
clears `error`, `startedAt`, `completedAt`, sets `scheduledFor = now`,
and removes the id from the in-process `processedJobs` set. -/
def retryJob (st : QState) (jobId : Nat) (now : Nat) : Except String QState :=
  match getJob st.jobs jobId with
  | none => .error "Job not found or not in failed state"
  | some j =>
    if j.status ≠ "failed" then .error "Job not found or not in failed state"
    else .ok { st with
      jobs := updateJob st.jobs jobId fun j =>
        { j with status := "pending", attempts := 0, error := none,
                 scheduledFor := now, startedAt := none, completedAt := none },
      processedJobs := st.processedJobs.filter (· ≠ jobId) }

/-- The two separate store operations that the source's claim path
performs, named for the race analysis: the select is the `findFirst` at
queue-service.ts:62 and the mark is the `update` at queue-service.ts:82.
The source itself comments `not atomic, race condition possible`. -/
def claimSelect (jobs : List Job) (now : Nat) : Option Job :=
  findNextPending jobs now

/-- The `update` to `status: "processing", startedAt: now` at
queue-service.ts:82-88, as an unconditional write keyed by id. -/
def claimMark (jobs : List Job) (id : Nat) (now : Nat) : List Job :=
  updateJob jobs id fun j => { j with status := "processing", startedAt := some now }

/-- Two worker processes A and B run the claim path against the shared
store under the interleaving select-A, select-B, mark-A, mark-B — legal
because select and mark are separate store operations. Returns the job
id each claimer selected (and, having selected, proceeds to execute) and
the final store. -/
def twoClaimerRace (jobs : List Job) (now : Nat) :
    Option Nat × Option Nat × List Job :=
  let a := claimSelect jobs now
  let b := claimSelect jobs now
  let jobs1 := match a with
    | some j => claimMark jobs j.id now
    | none => jobs
  let jobs2 := match b with
    | some j => claimMark jobs1 j.id now
    | none => jobs1
  (a.map Job.id, b.map Job.id, jobs2)

/-- An entry of `AIService.requestCache`: the cached provider text and
its insertion time (`{ result, timestamp }`). -/
structure CacheEntry where
  result : String
  timestamp : Nat
  deriving Repr, DecidableEq

/-- One content block of a provider response: a text block or any other
block type (`content.type !== "text"`). -/
inductive Content where
  | text (s : String)
  | other
  deriving Repr, DecidableEq

/-- The fields of a provider response that `AIService` reads: the first
content block and the token usage. -/
structure ProviderResponse where
  content : Content
  inputTokens : Nat
  outputTokens : Nat
  deriving Repr, DecidableEq

/-- A provider call either resolves to a response or rejects (network or
API error). -/
inductive ProviderResult where
  | ok (r : ProviderResponse)
  | err (msg : String)
  deriving Repr, DecidableEq

/-- The value `generateComponent` resolves to: `{ code, tokensUsed }`. -/
structure GenResult where
  code : String
  tokensUsed : Nat
  deriving Repr, DecidableEq

/-- `this.requestCache` is a JavaScript `Map`: an insertion-ordered
association list from exact prompt strings to cache entries. -/
abbrev Cache := List (String × CacheEntry)

/-- `requestCache.get(prompt)`. -/
def cacheGet (cache : Cache) (k : String) : Option CacheEntry :=
  (List.find? (fun p => p.1 == k) cache).map (·.2)

/-- `requestCache.set(k, v)`: replace in place when the key exists,
append otherwise. -/
def cacheSet (cache : Cache) (k : String) (v : CacheEntry) : Cache :=
  if (List.find? (fun p => p.1 == k) cache).isSome then
    List.map (fun p => if p.1 == k then (k, v) else p) cache
  else
    cache ++ [(k, v)]

/-- The sweep loop after each insert: delete every entry with
`now - timestamp > 3600000`. -/
def cacheSweep (cache : Cache) (now : Nat) : Cache :=
  List.filter (fun p => !decide (3600000 < now - p.2.timestamp)) cache

/-- `AIService.generateComponent` (the AI service source, lines 17-87):
return the cached text with `tokensUsed = 0` when the prompt has an
entry younger than 3600000 ms; otherwise call the provider, throw
(wrapped by the catch into `"Failed to generate component"`) on a
rejected call or a non-text first block, and on success cache the text,
sweep expired entries, and return the text with
`input_tokens + output_tokens`. -/
def generateComponent (provider : ProviderResult) (now : Nat) (cache : Cache)
    (prompt : String) : Except String (Cache × GenResult) :=
  match cacheGet cache prompt with
  | some cached =>
    if now - cached.timestamp < 3600000 then
      .ok (cache, ⟨cached.result, 0⟩)
    else
      generateComponentCall provider now cache prompt
  | none => generateComponentCall provider now cache prompt
where
  /-- The provider-call branch of `generateComponent`, reached when
  there is no fresh cache entry. -/
  generateComponentCall (provider : ProviderResult) (now : Nat)
      (cache : Cache) (prompt : String) : Except String (Cache × GenResult) :=
    match provider with
    | .err _ => .error "Failed to generate component"
    | .ok resp =>
      match resp.content with
      | .other => .error "Failed to generate component"
      | .text t =>
        let cache1 := cacheSweep (cacheSet cache prompt ⟨t, now⟩) now
        .ok (cache1, ⟨t, resp.inputTokens + resp.outputTokens⟩)

/-- JavaScript `String.prototype.includes` on lists of characters:
`pat` occurs contiguously in `s`. -/
def containsSub (s pat : List Char) : Bool :=
  match s with
  | [] => pat.isEmpty
  | _ :: rest => pat.isPrefixOf s || containsSub rest pat

/-- `text.toLowerCase()` on the character list of a string. -/
def lowerChars (s : String) : List Char :=
  s.data.map Char.toLower

/-- The value `validateComponent` resolves to: `{ valid, issues }`. -/
structure ValidationResult where
  valid : Bool
  issues : List String
  deriving Repr, DecidableEq

/-- `AIService.validateComponent` on a resolved response (the AI service
source, lines 174-215): when the first content block is text, `valid` is
false exactly when the lowercased text includes `"issue"` or `"error"`,
and `issues` is then the singleton holding the whole text; a non-text
block yields `{ valid: true, issues: [] }`. -/
def validateComponent (content : Content) : ValidationResult :=
  match content with
  | .text t =>
    let hasIssues := containsSub (lowerChars t) "issue".data ||
      containsSub (lowerChars t) "error".data
    { valid := !hasIssues, issues := if hasIssues then [t] else [] }
  | .other => { valid := true, issues := [] }

/-- Per-row invariant of the retry accounting: the schema default keeps
`maxAttempts` positive, `attempts` never exceeds `maxAttempts`, and a
row that is still `pending` has an attempt left. -/
def JobInv (j : Job) : Prop :=
  1 ≤ j.maxAttempts ∧ j.attempts ≤ j.maxAttempts ∧
    (j.status = "pending" → j.attempts < j.maxAttempts)

/-- Store invariant: row ids are unique (the primary key) and every row
satisfies `JobInv`. -/
def Inv (st : QState) : Prop :=
  (st.jobs.map Job.id).Nodup ∧ ∀ j ∈ st.jobs, JobInv j

/-- A concrete pending generation job, used by the concrete-input
theorems. -/
def jobA : Job :=
  { id := 1, type := "ai_generation", payloadGenerationId := 7,
    payloadPrompt := "button", status := "pending", priority := 0,
    attempts := 0, maxAttempts := 3, scheduledFor := 0, startedAt := none,
    completedAt := none, error := none, createdAt := 0 }

/-- The generation row referenced by `jobA`'s payload. -/
def genA : Generation :=
  { id := 7, status := "pending", result := none, tokensUsed := none,
    completedAt := none }

/-- A worker state holding only `jobA` and `genA`, nothing claimed yet. -/
def stA : QState :=
  { jobs := [jobA], gens := [genA], processing := false,
    processedJobs := [], failedJobsCache := [] }

/-- A permanently failed job with all three attempts spent. -/
def jobFailed : Job :=
  { jobA with status := "failed", attempts := 3, error := some "boom" }

/-- A state holding a permanently failed job with all three attempts
spent. -/
def stFailed : QState :=
  { stA with jobs := [jobFailed] }

/-- What `retryJob` produces from `stFailed`: the row reset to pending
with zero attempts and cleared bookkeeping. -/
def stFailedReset : QState :=
  { stA with jobs := [{ jobA with status := "pending", attempts := 0,
                                  error := none, scheduledFor := 50,
                                  startedAt := none,
                                  completedAt := none }] }

end NocodeAI

namespace NocodeAI

theorem pickBest_mem {l : List Job} {j : Job} (h : pickBest l = some j) :
    j ∈ l := by
  induction l with
  | nil => simp [pickBest] at h
  | cons a rest ih =>
    rw [pickBest] at h
    cases hb : pickBest rest with
    | none => rw [hb] at h; cases h; exact List.mem_cons_self _ _
    | some b =>
      rw [hb] at h
      dsimp only at h
      by_cases hp : precedes b a = true
      · rw [if_pos hp] at h
        cases h
        exact List.mem_cons_of_mem _ (ih hb)
      · rw [if_neg hp] at h
        cases h
        exact List.mem_cons_self _ _

theorem findNextPending_mem {jobs : List Job} {now : Nat} {j : Job}
    (h : findNextPending jobs now = some j) : j ∈ jobs :=
  (List.mem_filter.mp (pickBest_mem h)).1

theorem findNextPending_eligible {jobs : List Job} {now : Nat} {j : Job}
    (h : findNextPending jobs now = some j) : eligible now j = true :=
  (List.mem_filter.mp (pickBest_mem h)).2

theorem eligible_status {now : Nat} {j : Job} (h : eligible now j = true) :
    j.status = "pending" := by
  unfold eligible at h
  exact eq_of_beq (Bool.and_eq_true_iff.mp h).1

theorem find?_map_ite {α : Type} (idf : α → Nat) (l : List α) (id q : Nat)
    (f : α → α) (hf : ∀ a, idf (f a) = idf a) :
    List.find? (fun a => idf a == q) (l.map fun a => if idf a = id then f a else a)
      = (List.find? (fun a => idf a == q) l).map
          fun a => if idf a = id then f a else a := by
  have hp : ((fun a => idf a == q) ∘ fun a => if idf a = id then f a else a)
      = fun a => idf a == q := by
    funext a
    by_cases h : idf a = id <;> simp [h, hf]
  rw [List.find?_map, hp]

theorem getJob_updateJob {jobs : List Job} {id q : Nat} {f : Job → Job}
    (hf : ∀ j, (f j).id = j.id) :
    getJob (updateJob jobs id f) q
      = (getJob jobs q).map fun a => if a.id = id then f a else a :=
  find?_map_ite Job.id jobs id q f hf

theorem getGen_updateGen {gens : List Generation} {id q : Nat}
    {f : Generation → Generation} (hf : ∀ g, (f g).id = g.id) :
    getGen (updateGen gens id f) q
      = (getGen gens q).map fun g => if g.id = id then f g else g :=
  find?_map_ite Generation.id gens id q f hf

theorem updateJob_comp {jobs : List Job} {id : Nat} {f g : Job → Job}
    (hf : ∀ j, (f j).id = j.id) :
    updateJob (updateJob jobs id f) id g
      = updateJob jobs id fun a => g (f a) := by
  unfold updateJob
  rw [List.map_map]
  congr 1
  funext a
  by_cases h : a.id = id <;> simp [h, hf]

theorem updateJob_map_id {jobs : List Job} {id : Nat} {f : Job → Job}
    (hf : ∀ j, (f j).id = j.id) :
    (updateJob jobs id f).map Job.id = jobs.map Job.id := by
  unfold updateJob
  rw [List.map_map]
  congr 1
  funext a
  by_cases h : a.id = id <;> simp [h, hf]

theorem getJob_of_mem_nodup {jobs : List Job} {j : Job}
    (hn : (jobs.map Job.id).Nodup) (hm : j ∈ jobs) :
    getJob jobs j.id = some j := by
  have hs : (List.find? (fun a => a.id == j.id) jobs).isSome := by
    rw [List.find?_isSome]
    exact ⟨j, hm, by simp⟩
  obtain ⟨b, hb⟩ := Option.isSome_iff_exists.mp hs
  have hbm : b ∈ jobs := List.mem_of_find?_eq_some hb
  have hbid : b.id = j.id := by
    have := List.find?_some hb
    exact eq_of_beq this
  have : b = j := List.inj_on_of_nodup_map hn hbm hm hbid
  rw [getJob, hb, this]

theorem cacheGet_none_find {cache : Cache} {k : String}
    (h : cacheGet cache k = none) :
    List.find? (fun p => p.1 == k) cache = none := by
  unfold cacheGet at h
  cases hf : List.find? (fun p => p.1 == k) cache with
  | none => rfl
  | some q => rw [hf] at h; simp at h

theorem cacheSet_of_none {cache : Cache} {k : String} {v : CacheEntry}
    (h : cacheGet cache k = none) : cacheSet cache k v = cache ++ [(k, v)] := by
  unfold cacheSet
  rw [cacheGet_none_find h]
  rfl

theorem cacheGet_after_insert {cache : Cache} {k : String} {v : CacheEntry}
    {now : Nat} (h : cacheGet cache k = none) :
    cacheGet (cacheSweep (cacheSet cache k v) now) k
      = if 3600000 < now - v.timestamp then none else some v := by
  rw [cacheSet_of_none h]
  unfold cacheSweep cacheGet
  rw [List.filter_append, List.find?_append]
  have h1 : List.find? (fun p => p.1 == k)
      (List.filter (fun p => !decide (3600000 < now - p.2.timestamp)) cache)
        = none := by
    rw [List.find?_eq_none]
    intro x hx
    exact (List.find?_eq_none.mp (cacheGet_none_find h)) x
      (List.mem_of_mem_filter hx)
  rw [h1]
  by_cases hk : 3600000 < now - v.timestamp
  · simp [hk]
  · simp [hk]

theorem containsSub_iff {s pat : List Char} :
    containsSub s pat = true ↔ ∃ pre post, s = pre ++ pat ++ post := by
  induction s with
  | nil =>
    rw [containsSub]
    constructor
    · intro h
      have : pat = [] := by simpa using h
      exact ⟨[], [], by simp [this]⟩
    · rintro ⟨pre, post, hp⟩
      have h2 := List.append_eq_nil.mp hp.symm
      have h3 := List.append_eq_nil.mp h2.1
      simp [h3.2]
  | cons c rest ih =>
    rw [containsSub, Bool.or_eq_true]
    constructor
    · rintro (hpre | hrec)
      · rcases List.isPrefixOf_iff_prefix.mp hpre with ⟨post, hp⟩
        exact ⟨[], post, by simp [hp]⟩
      · rcases ih.mp hrec with ⟨pre, post, hp⟩
        exact ⟨c :: pre, post, by simp [hp]⟩
    · rintro ⟨pre, post, hp⟩
      cases pre with
      | nil =>
        left
        rw [List.isPrefixOf_iff_prefix]
        exact ⟨post, by simpa using hp.symm⟩
      | cons p ps =>
        right
        have hc : c = p ∧ rest = ps ++ pat ++ post := by
          simpa using hp
        exact ih.mpr ⟨ps, post, hc.2⟩

theorem setProcessingFalse_eq {st : QState} (hp : st.processing = false) :
    { st with processing := false } = st := by
  cases st
  simp_all

theorem processNextJob_busy {out : AIOutcome} {now : Nat} {st : QState}
    (hp : st.processing = true) : processNextJob out now st = st := by
  simp [processNextJob, hp]

theorem processNextJob_idle {out : AIOutcome} {now : Nat} {st : QState}
    (hp : st.processing = false) (hsel : findNextPending st.jobs now = none) :
    processNextJob out now st = st := by
  simp [processNextJob, hp, hsel, setProcessingFalse_eq hp]

theorem processNextJob_skip {out : AIOutcome} {now : Nat} {st : QState}
    {j : Job} (hp : st.processing = false)
    (hsel : findNextPending st.jobs now = some j)
    (hmem : st.processedJobs.contains j.id = true) :
    processNextJob out now st = st := by
  have hm : j.id ∈ st.processedJobs := by simpa using hmem
  simp only [processNextJob, hp, Bool.false_eq_true, if_false, hsel, hmem,
    if_true]
  exact setProcessingFalse_eq hp

theorem processNextJob_success {out : AIOutcome} {now : Nat} {st : QState}
    {j : Job} {gens1 : List Generation} (hp : st.processing = false)
    (hsel : findNextPending st.jobs now = some j)
    (hmem : st.processedJobs.contains j.id = false)
    (hexec : executeJob out now st.gens j = (gens1, none)) :
    processNextJob out now st =
      { jobs := updateJob st.jobs j.id fun a =>
          { a with status := "completed", startedAt := some now,
                   completedAt := some now },
        gens := gens1, processing := false,
        processedJobs := j.id :: st.processedJobs,
        failedJobsCache := st.failedJobsCache } := by
  simp only [processNextJob, hp, Bool.false_eq_true, if_false, hsel, hmem,
    hexec]
  rw [updateJob_comp]
  exact fun a => rfl

theorem processNextJob_fail_retry {out : AIOutcome} {now : Nat} {st : QState}
    {j : Job} {gens1 : List Generation} {msg : String}
    (hp : st.processing = false)
    (hsel : findNextPending st.jobs now = some j)
    (hmem : st.processedJobs.contains j.id = false)
    (hexec : executeJob out now st.gens j = (gens1, some msg))
    (hlt : j.attempts + 1 < j.maxAttempts) :
    processNextJob out now st =
      { jobs := updateJob st.jobs j.id fun a =>
          { a with status := "pending", attempts := j.attempts + 1,
                   error := some msg, scheduledFor := now + 5000,
                   startedAt := some now },
        gens := gens1, processing := false,
        processedJobs := j.id :: st.processedJobs,
        failedJobsCache := st.failedJobsCache ++ [(j.id, msg, now)] } := by
  simp only [processNextJob, hp, Bool.false_eq_true, if_false, hsel, hmem,
    hexec, hlt, if_pos]
  rw [updateJob_comp]
  exact fun a => rfl

theorem processNextJob_fail_final {out : AIOutcome} {now : Nat} {st : QState}
    {j : Job} {gens1 : List Generation} {msg : String}
    (hp : st.processing = false)
    (hsel : findNextPending st.jobs now = some j)
    (hmem : st.processedJobs.contains j.id = false)
    (hexec : executeJob out now st.gens j = (gens1, some msg))
    (hge : ¬ j.attempts + 1 < j.maxAttempts) :
    processNextJob out now st =
      { jobs := updateJob st.jobs j.id fun a =>
          { a with status := "failed", attempts := j.attempts + 1,
                   error := some msg, completedAt := some now,
                   startedAt := some now },
        gens := gens1, processing := false,
        processedJobs := j.id :: st.processedJobs,
        failedJobsCache := st.failedJobsCache ++ [(j.id, msg, now)] } := by
  simp only [processNextJob, hp, Bool.false_eq_true, if_false, hsel, hmem,
    hexec, hge, if_neg]
  rw [updateJob_comp]
  exact fun a => rfl

/-- C1: claiming is not atomic. The source performs the claim as two
separate store operations (the `findFirst` at queue-service.ts:62 and
the `update` to processing at queue-service.ts:82, commented
`not atomic, race condition possible`). Under the legal interleaving in
which two workers both run the select before either runs the mark, both
select — and therefore both go on to claim and execute — the same
pending job `jobA`, refuting the claimed exactly-once property. -/
theorem c1_two_step_claim_double_claims :
    (twoClaimerRace [jobA] 100).1 = some 1 ∧
      (twoClaimerRace [jobA] 100).2.1 = some 1 :=
  ⟨rfl, rfl⟩

/-- C2: a claimed job with an unrecognized type is marked `completed`
with no error, whatever the provider outcome: the `default` branch of
`executeJob` (queue-service.ts:161-162) only logs, so `processNextJob`
reaches its success write. This refutes the claim that such a job ends
`failed` with a populated error. -/
theorem c2_unknown_type_marked_completed :
    ∀ out : AIOutcome,
      getJob (processNextJob out 100
          { stA with jobs := [{ jobA with type := "make_coffee" }] }).jobs 1
        = some { jobA with type := "make_coffee", status := "completed",
                           startedAt := some 100,
                           completedAt := some 100 } := by
  intro out
  cases out <;> rfl

/-- C3: the retry delay is the fixed literal 5000 ms
(queue-service.ts:126), not a function that grows with the attempt
count: a first transient failure (attempts 0 → 1) and a second one
(attempts 1 → 2) both reschedule at exactly `now + 5000`. The
return-to-pending and attempts-increment parts of the claim do hold and
are visible in the two result rows. -/
theorem c3_retry_delay_fixed_5000 :
    getJob (processNextJob (.failure "provider down") 100 stA).jobs 1
      = some { jobA with status := "pending", attempts := 1,
                         error := some "provider down",
                         scheduledFor := 100 + 5000,
                         startedAt := some 100 } ∧
    getJob (processNextJob (.failure "provider down") 100
        { stA with jobs := [{ jobA with attempts := 1 }] }).jobs 1
      = some { jobA with status := "pending", attempts := 2,
                         error := some "provider down",
                         scheduledFor := 100 + 5000,
                         startedAt := some 100 } :=
  ⟨rfl, rfl⟩

/-- C6 counterexample: a transient failure that will still be retried
does mark the Result Record failed. With `jobA` (attempts 0 of 3) and a
failing provider call, the job returns to `pending` — it will be
retried — yet the generation row is already updated to `failed`
(queue-service.ts:182-188 runs on every thrown handler error before the
rethrow). -/
theorem c6_counterexample_transient_marks_generation_failed :
    (getJob (processNextJob (.failure "rate limited") 100 stA).jobs 1).map
        Job.status = some "pending" ∧
      getGen (processNextJob (.failure "rate limited") 100 stA).gens 7
        = some { genA with status := "failed", completedAt := some 100 } :=
  ⟨rfl, rfl⟩

theorem getJob_of_sel {jobs : List Job} {now : Nat} {j : Job}
    (hsel : findNextPending jobs now = some j) :
    ∃ a, getJob jobs j.id = some a ∧ a.id = j.id := by
  have hj : j ∈ jobs := findNextPending_mem hsel
  have hs : (List.find? (fun a => a.id == j.id) jobs).isSome := by
    rw [List.find?_isSome]
    exact ⟨j, hj, by simp⟩
  obtain ⟨a0, ha0⟩ := Option.isSome_iff_exists.mp hs
  have hpred : (a0.id == j.id) = true := List.find?_some (p := fun (a : Job) => a.id == j.id) ha0
  exact ⟨a0, ha0, eq_of_beq hpred⟩

/-- C4: once a job's id is in the worker's in-process `processedJobs`
set, any tick that selects that job returns with the whole state
unchanged — nothing is claimed or executed, and in particular no other
pending job is processed on that tick (queue-service.ts:76-79). And a
tick that runs a job to a transient failure with attempts left puts the
job back to `pending` in the store while recording its id in
`processedJobs` — so by the first part the same worker never executes it
again. -/
theorem c4_processed_jobs_block_reprocessing :
    (∀ (out : AIOutcome) (now : Nat) (st : QState) (j : Job),
        st.processing = false →
        findNextPending st.jobs now = some j →
        st.processedJobs.contains j.id = true →
        processNextJob out now st = st) ∧
    (∀ (out : AIOutcome) (now : Nat) (st : QState) (j : Job)
        (g : List Generation) (msg : String),
        st.processing = false →
        findNextPending st.jobs now = some j →
        st.processedJobs.contains j.id = false →
        executeJob out now st.gens j = (g, some msg) →
        j.attempts + 1 < j.maxAttempts →
        (processNextJob out now st).processedJobs.contains j.id = true ∧
          ∃ a, getJob (processNextJob out now st).jobs j.id = some a ∧
            a.status = "pending" ∧ a.attempts = j.attempts + 1) := by
  constructor
  · intro out now st j hp hsel hmem
    exact processNextJob_skip hp hsel hmem
  · intro out now st j g msg hp hsel hmem hexec hlt
    rw [processNextJob_fail_retry hp hsel hmem hexec hlt]
    refine ⟨by simp, ?_⟩
    obtain ⟨a0, ha0, haid⟩ := getJob_of_sel hsel
    dsimp only
    rw [getJob_updateJob, ha0, Option.map_some', if_pos haid]
    · exact ⟨_, rfl, rfl, rfl⟩
    · exact fun a => rfl

/-- C7: a job failing transiently on its final allowed attempt
(attempts+1 ≥ maxAttempts) is written as `failed` with `attempts`
incremented and `error` populated, and its status is not `pending`
(queue-service.ts:129-140). -/
theorem c7_final_attempt_failure_is_permanent :
    ∀ (out : AIOutcome) (now : Nat) (st : QState) (j : Job)
      (g : List Generation) (msg : String),
      st.processing = false →
      findNextPending st.jobs now = some j →
      st.processedJobs.contains j.id = false →
      executeJob out now st.gens j = (g, some msg) →
      j.maxAttempts ≤ j.attempts + 1 →
      ∃ a, getJob (processNextJob out now st).jobs j.id = some a ∧
        a.status = "failed" ∧ a.attempts = j.attempts + 1 ∧
        a.error = some msg ∧ ¬ a.status = "pending" := by
  intro out now st j g msg hp hsel hmem hexec hge
  rw [processNextJob_fail_final hp hsel hmem hexec (by omega)]
  obtain ⟨a0, ha0, haid⟩ := getJob_of_sel hsel
  dsimp only
  rw [getJob_updateJob, ha0, Option.map_some', if_pos haid]
  · exact ⟨_, rfl, rfl, rfl, rfl, by simp⟩
  · exact fun a => rfl

/-- C9 counterexample: `attempts` does decrease across an operation of
the core. `retryJob` on a failed job with all three attempts spent
resets `attempts` from 3 to 0 (queue-service.ts:293). -/
theorem c9_counterexample_retry_decreases_attempts :
    (getJob stFailed.jobs 1).map Job.attempts = some 3 ∧
      retryJob stFailed 1 50 = Except.ok stFailedReset ∧
      (getJob stFailedReset.jobs 1).map Job.attempts = some 0 ∧ (0 : Nat) < 3 :=
  ⟨rfl, rfl, rfl, by decide⟩

/-- C4 witness: both parts of the theorem at concrete inputs — a tick
against a state whose `processedJobs` already holds the selected job's
id leaves the state untouched, and a transient-failure tick on the fresh
fixture records the id while the job goes back to pending. -/
theorem c4_processed_jobs_block_reprocessing_witness :
    processNextJob (.failure "x") 100 { stA with processedJobs := [1] }
        = { stA with processedJobs := [1] } ∧
      ((processNextJob (.failure "boom") 100 stA).processedJobs.contains
          jobA.id = true ∧
        ∃ a, getJob (processNextJob (.failure "boom") 100 stA).jobs jobA.id
            = some a ∧ a.status = "pending" ∧ a.attempts = jobA.attempts + 1) :=
  ⟨c4_processed_jobs_block_reprocessing.1 (.failure "x") 100
      { stA with processedJobs := [1] } jobA rfl (by decide) (by decide),
    c4_processed_jobs_block_reprocessing.2 (.failure "boom") 100 stA jobA
      [{ genA with status := "failed", completedAt := some 100 }] "boom"
      rfl (by decide) (by decide) (by decide) (by decide)⟩

/-- C7 witness: the theorem applied to a job on its last allowed attempt
(attempts 2 of 3) with a failing provider call. -/
theorem c7_final_attempt_failure_is_permanent_witness :
    ∃ a, getJob (processNextJob (.failure "boom") 100
        { stA with jobs := [{ jobA with attempts := 2 }] }).jobs 1 = some a ∧
      a.status = "failed" ∧ a.attempts = 3 ∧ a.error = some "boom" ∧
      ¬ a.status = "pending" := by
  have h := c7_final_attempt_failure_is_permanent (.failure "boom") 100
    { stA with jobs := [{ jobA with attempts := 2 }] }
    { jobA with attempts := 2 }
    [{ genA with status := "failed", completedAt := some 100 }] "boom"
    rfl (by decide) (by decide) (by decide) (by decide)
  simpa [jobA] using h

/-- C6 (amended): a generation job's payload carries
`{generationId, prompt}` referencing a generation row; on handler
success that row is set to completed with the code and token count; on
any handler failure — transient or permanent alike — it is set to
failed (queue-service.ts:166-192 writes the failed update before
rethrowing, so even a failure that will still be retried marks the
record failed; a later successful retry overwrites it). -/
theorem c6_generation_result_record_updates :
    ∀ (out : AIOutcome) (now : Nat) (st : QState) (j : Job) (g : Generation),
      st.processing = false →
      findNextPending st.jobs now = some j →
      st.processedJobs.contains j.id = false →
      j.type = "ai_generation" →
      getGen st.gens j.payloadGenerationId = some g →
      (∀ code tokens, out = .success code tokens →
        getGen (processNextJob out now st).gens j.payloadGenerationId
          = some { g with status := "completed", result := some code,
                          tokensUsed := some tokens,
                          completedAt := some now }) ∧
      (∀ msg, out = .failure msg →
        getGen (processNextJob out now st).gens j.payloadGenerationId
          = some { g with status := "failed", completedAt := some now }) := by
  intro out now st j g hp hsel hmem htype hg
  have hgid : g.id = j.payloadGenerationId :=
    eq_of_beq (List.find?_some
      (p := fun (x : Generation) => x.id == j.payloadGenerationId) hg)
  constructor
  · intro code tokens hout
    subst hout
    have hexec : executeJob (.success code tokens) now st.gens j
        = (updateGen st.gens j.payloadGenerationId fun g =>
            { g with status := "completed", result := some code,
                     tokensUsed := some tokens, completedAt := some now },
           none) := by
      simp [executeJob, htype, handleAIGeneration]
    rw [processNextJob_success hp hsel hmem hexec]
    dsimp only
    rw [getGen_updateGen, hg, Option.map_some', if_pos hgid]
    exact fun x => rfl
  · intro msg hout
    subst hout
    have hexec : executeJob (.failure msg) now st.gens j
        = (updateGen st.gens j.payloadGenerationId fun g =>
            { g with status := "failed", completedAt := some now },
           some msg) := by
      simp [executeJob, htype, handleAIGeneration]
    by_cases hlt : j.attempts + 1 < j.maxAttempts
    · rw [processNextJob_fail_retry hp hsel hmem hexec hlt]
      dsimp only
      rw [getGen_updateGen, hg, Option.map_some', if_pos hgid]
      exact fun x => rfl
    · rw [processNextJob_fail_final hp hsel hmem hexec hlt]
      dsimp only
      rw [getGen_updateGen, hg, Option.map_some', if_pos hgid]
      exact fun x => rfl

/-- C6 witness: the success part of the amended theorem at the fixture —
a successful generation run writes the completed result into the
referenced generation row. -/
theorem c6_generation_result_record_updates_witness :
    getGen (processNextJob (.success "export default Button" 15) 100
        stA).gens jobA.payloadGenerationId
      = some { genA with status := "completed",
                         result := some "export default Button",
                         tokensUsed := some 15, completedAt := some 100 } :=
  (c6_generation_result_record_updates (.success "export default Button" 15)
      100 stA jobA genA rfl (by decide) (by decide) rfl (by decide)).1
    "export default Button" 15 rfl

/-- C8: `retryJob` throws its not-found-or-not-failed error — leaving
the store untouched, since the throw precedes any write — exactly when
the row is missing or its status is not `failed`; on a failed row it
returns the store with that row reset to `pending`, `attempts = 0`, and
`error`, `startedAt`, `completedAt` cleared (queue-service.ts:279-303). -/
theorem c8_retry_job_contract :
    ∀ (st : QState) (id now : Nat),
      (getJob st.jobs id = none →
        retryJob st id now = .error "Job not found or not in failed state") ∧
      (∀ j, getJob st.jobs id = some j → ¬ j.status = "failed" →
        retryJob st id now = .error "Job not found or not in failed state") ∧
      (∀ j, getJob st.jobs id = some j → j.status = "failed" →
        ∃ st', retryJob st id now = .ok st' ∧
          getJob st'.jobs id
            = some { j with status := "pending", attempts := 0,
                            error := none, scheduledFor := now,
                            startedAt := none, completedAt := none }) := by
  intro st id now
  refine ⟨?_, ?_, ?_⟩
  · intro h
    simp [retryJob, h]
  · intro j hj hs
    simp [retryJob, hj, hs]
  · intro j hj hs
    have hjid : j.id = id :=
      eq_of_beq (List.find?_some (p := fun (x : Job) => x.id == id) hj)
    have hrun : retryJob st id now
        = .ok { st with
            jobs := updateJob st.jobs id fun a =>
              { a with status := "pending", attempts := 0, error := none,
                       scheduledFor := now, startedAt := none,
                       completedAt := none },
            processedJobs := st.processedJobs.filter (· ≠ id) } := by
      simp [retryJob, hj, hs]
    refine ⟨_, hrun, ?_⟩
    dsimp only
    rw [getJob_updateJob, hj, Option.map_some', if_pos hjid]
    exact fun a => rfl

/-- C8 witness: the theorem at concrete inputs — retrying the pending
fixture job throws, retrying the failed fixture job resets it. -/
theorem c8_retry_job_contract_witness :
    retryJob stA 1 50 = .error "Job not found or not in failed state" ∧
      ∃ st', retryJob stFailed 1 50 = .ok st' ∧
        getJob st'.jobs 1
          = some { jobFailed with status := "pending", attempts := 0,
                                  error := none, scheduledFor := 50,
                                  startedAt := none, completedAt := none } :=
  ⟨(c8_retry_job_contract stA 1 50).2.1 jobA (by decide) (by decide),
    (c8_retry_job_contract stFailed 1 50).2.2 jobFailed (by decide) rfl⟩

theorem jobInv_updateJob_mem {jobs : List Job} {id : Nat} {f : Job → Job}
    (hall : ∀ x ∈ jobs, JobInv x)
    (hf : ∀ x ∈ jobs, x.id = id → JobInv (f x)) :
    ∀ x ∈ updateJob jobs id f, JobInv x := by
  intro x hx
  rcases List.mem_map.mp hx with ⟨a, ha, rfl⟩
  by_cases h : a.id = id
  · show JobInv (if a.id = id then f a else a)
    rw [if_pos h]
    exact hf a ha h
  · show JobInv (if a.id = id then f a else a)
    rw [if_neg h]
    exact hall a ha

theorem jobInv_not_pending {j : Job} (h1 : 1 ≤ j.maxAttempts)
    (h2 : j.attempts ≤ j.maxAttempts) (h3 : ¬ j.status = "pending") :
    JobInv j :=
  ⟨h1, h2, fun hp => absurd hp h3⟩

theorem inv_processNextJob {out : AIOutcome} {now : Nat} {st : QState}
    (hInv : Inv st) : Inv (processNextJob out now st) := by
  by_cases hp : st.processing = true
  · rw [processNextJob_busy hp]; exact hInv
  · have hp' : st.processing = false := by simpa using hp
    cases hsel : findNextPending st.jobs now with
    | none => rw [processNextJob_idle hp' hsel]; exact hInv
    | some j =>
      cases hmem : st.processedJobs.contains j.id with
      | true => rw [processNextJob_skip hp' hsel hmem]; exact hInv
      | false =>
        have hjmem : j ∈ st.jobs := findNextPending_mem hsel
        have hjInv : JobInv j := hInv.2 j hjmem
        have hjpend : j.status = "pending" :=
          eligible_status (findNextPending_eligible hsel)
        have hjlt : j.attempts < j.maxAttempts := hjInv.2.2 hjpend
        cases hexec : executeJob out now st.gens j with
        | mk gens1 eres =>
          cases eres with
          | none =>
            rw [processNextJob_success hp' hsel hmem hexec]
            refine ⟨?_, ?_⟩
            · dsimp only
              rw [updateJob_map_id]
              · exact hInv.1
              · exact fun a => rfl
            · dsimp only
              refine jobInv_updateJob_mem hInv.2 ?_
              intro x hx hxid
              exact jobInv_not_pending (hInv.2 x hx).1 (hInv.2 x hx).2.1
                (by simp)
          | some msg =>
            by_cases hlt2 : j.attempts + 1 < j.maxAttempts
            · rw [processNextJob_fail_retry hp' hsel hmem hexec hlt2]
              refine ⟨?_, ?_⟩
              · dsimp only
                rw [updateJob_map_id]
                · exact hInv.1
                · exact fun a => rfl
              · dsimp only
                refine jobInv_updateJob_mem hInv.2 ?_
                intro x hx hxid
                have hxj : x = j :=
                  List.inj_on_of_nodup_map hInv.1 hx hjmem hxid
                subst hxj
                refine ⟨hjInv.1, ?_, fun _ => hlt2⟩
                dsimp only
                omega
            · rw [processNextJob_fail_final hp' hsel hmem hexec hlt2]
              refine ⟨?_, ?_⟩
              · dsimp only
                rw [updateJob_map_id]
                · exact hInv.1
                · exact fun a => rfl
              · dsimp only
                refine jobInv_updateJob_mem hInv.2 ?_
                intro x hx hxid
                have hxj : x = j :=
                  List.inj_on_of_nodup_map hInv.1 hx hjmem hxid
                subst hxj
                refine jobInv_not_pending hjInv.1 ?_ (by simp)
                dsimp only
                omega

theorem mono_processNextJob {out : AIOutcome} {now : Nat} {st : QState}
    {q : Nat} {a b : Job} (hInv : Inv st) (ha : getJob st.jobs q = some a)
    (hb : getJob (processNextJob out now st).jobs q = some b) :
    a.attempts ≤ b.attempts := by
  have hsame : ∀ (h : (processNextJob out now st) = st),
      a.attempts ≤ b.attempts := by
    intro h
    rw [h, ha] at hb
    cases hb
    exact Nat.le_refl _
  by_cases hp : st.processing = true
  · exact hsame (processNextJob_busy hp)
  · have hp' : st.processing = false := by simpa using hp
    cases hsel : findNextPending st.jobs now with
    | none => exact hsame (processNextJob_idle hp' hsel)
    | some j =>
      cases hmem : st.processedJobs.contains j.id with
      | true => exact hsame (processNextJob_skip hp' hsel hmem)
      | false =>
        have hjmem : j ∈ st.jobs := findNextPending_mem hsel
        have hamem : a ∈ st.jobs := List.mem_of_find?_eq_some ha
        have hedge : ∀ (F : Job → Job), (∀ x, (F x).id = x.id) →
            (∀ x, x ∈ st.jobs → x.id = j.id → x.attempts ≤ (F x).attempts) →
            getJob (updateJob st.jobs j.id F) q = some b →
            a.attempts ≤ b.attempts := by
          intro F hFid hFmono hb2
          rw [getJob_updateJob hFid, ha, Option.map_some'] at hb2
          cases hb2
          by_cases hid : a.id = j.id
          · rw [if_pos hid]
            exact hFmono a hamem hid
          · rw [if_neg hid]
        have hmono : ∀ x : Job, x ∈ st.jobs → x.id = j.id →
            x.attempts ≤ j.attempts + 1 := by
          intro x hx hxid
          have hxj : x = j :=
            List.inj_on_of_nodup_map hInv.1 hx hjmem hxid
          subst hxj
          omega
        cases hexec : executeJob out now st.gens j with
        | mk gens1 eres =>
          cases eres with
          | none =>
            rw [processNextJob_success hp' hsel hmem hexec] at hb
            dsimp only at hb
            exact hedge
              (fun x => { x with status := "completed", startedAt := some now,
                                 completedAt := some now })
              (fun x => rfl) (fun x _ _ => Nat.le_refl _) hb
          | some msg =>
            by_cases hlt2 : j.attempts + 1 < j.maxAttempts
            · rw [processNextJob_fail_retry hp' hsel hmem hexec hlt2] at hb
              dsimp only at hb
              exact hedge
                (fun x => { x with status := "pending",
                                   attempts := j.attempts + 1,
                                   error := some msg,
                                   scheduledFor := now + 5000,
                                   startedAt := some now })
                (fun x => rfl) hmono hb
            · rw [processNextJob_fail_final hp' hsel hmem hexec hlt2] at hb
              dsimp only at hb
              exact hedge
                (fun x => { x with status := "failed",
                                   attempts := j.attempts + 1,
                                   error := some msg,
                                   completedAt := some now,
                                   startedAt := some now })
                (fun x => rfl) hmono hb

theorem inv_addJob {st : QState} {type prompt : String} {gid : Nat}
    {prio : Int} {newId maxAtt now : Nat} (hInv : Inv st)
    (hmax : 1 ≤ maxAtt) (hfresh : ∀ j ∈ st.jobs, ¬ j.id = newId) :
    Inv (addJob st type gid prompt prio newId maxAtt now) := by
  refine ⟨?_, ?_⟩
  · dsimp only [addJob]
    rw [List.map_append]
    refine List.Nodup.append hInv.1 (by simp) ?_
    intro x hx hx2
    rcases List.mem_map.mp hx with ⟨a, ha, rfl⟩
    have hxid : a.id = newId := by simpa using hx2
    exact hfresh a ha hxid
  · dsimp only [addJob]
    intro x hx
    rcases List.mem_append.mp hx with hx1 | hx1
    · exact hInv.2 x hx1
    · have hxeq := by simpa using hx1
      subst hxeq
      exact ⟨hmax, Nat.zero_le _, fun _ => hmax⟩

theorem getJob_addJob {st : QState} {type prompt : String} {gid : Nat}
    {prio : Int} {newId maxAtt now q : Nat} {a : Job}
    (ha : getJob st.jobs q = some a) :
    getJob (addJob st type gid prompt prio newId maxAtt now).jobs q
      = some a := by
  dsimp only [addJob]
  unfold getJob at ha ⊢
  rw [List.find?_append, ha]
  rfl

theorem inv_retryJob {st st' : QState} {id now : Nat} (hInv : Inv st)
    (hrun : retryJob st id now = .ok st') : Inv st' := by
  unfold retryJob at hrun
  cases hj : getJob st.jobs id with
  | none => rw [hj] at hrun; cases hrun
  | some j =>
    rw [hj] at hrun
    dsimp only at hrun
    by_cases hs : j.status = "failed"
    · rw [if_neg (not_not_intro hs)] at hrun
      cases hrun
      refine ⟨?_, ?_⟩
      · dsimp only
        rw [updateJob_map_id]
        · exact hInv.1
        · exact fun a => rfl
      · dsimp only
        refine jobInv_updateJob_mem hInv.2 ?_
        intro x hx hxid
        exact ⟨(hInv.2 x hx).1, Nat.zero_le _, fun _ => (hInv.2 x hx).1⟩
    · rw [if_pos hs] at hrun
      cases hrun

/-- C9 (amended): every operation of the core preserves the invariant
`0 ≤ attempts ≤ maxAttempts` (the lower bound is inherent in the `Nat`
type): enqueue does, given a positive schema-default `maxAttempts` and
a fresh row id; a full `processNextJob` tick does; and `retryJob` does.
`attempts` never decreases across enqueue (existing rows are untouched)
or across a tick — but manual `retryJob` resets it to 0, which is a
decrease whenever the failed row had a positive count, so the claim's
never-decreases clause holds only with manual retry excluded. -/
theorem c9_attempts_invariant :
    (∀ (st : QState) (type prompt : String) (gid : Nat) (prio : Int)
        (newId maxAtt now : Nat), Inv st → 1 ≤ maxAtt →
        (∀ j ∈ st.jobs, ¬ j.id = newId) →
        Inv (addJob st type gid prompt prio newId maxAtt now)) ∧
    (∀ (out : AIOutcome) (now : Nat) (st : QState), Inv st →
        Inv (processNextJob out now st)) ∧
    (∀ (st st' : QState) (id now : Nat), Inv st →
        retryJob st id now = .ok st' → Inv st') ∧
    (∀ (st : QState) (type prompt : String) (gid : Nat) (prio : Int)
        (newId maxAtt now q : Nat) (a : Job),
        getJob st.jobs q = some a →
        getJob (addJob st type gid prompt prio newId maxAtt now).jobs q
          = some a) ∧
    (∀ (out : AIOutcome) (now : Nat) (st : QState) (q : Nat) (a b : Job),
        Inv st → getJob st.jobs q = some a →
        getJob (processNextJob out now st).jobs q = some b →
        a.attempts ≤ b.attempts) :=
  ⟨fun _ _ _ _ _ _ _ _ hInv hmax hfresh => inv_addJob hInv hmax hfresh,
    fun _ _ _ hInv => inv_processNextJob hInv,
    fun _ _ _ _ hInv hrun => inv_retryJob hInv hrun,
    fun _ _ _ _ _ _ _ _ _ _ ha => getJob_addJob ha,
    fun _ _ _ _ _ _ hInv ha hb => mono_processNextJob hInv ha hb⟩

/-- C9 witness: the invariant-preservation parts of the theorem applied
at the concrete fixtures. -/
theorem c9_attempts_invariant_witness :
    Inv (processNextJob (.failure "boom") 100 stA) ∧ Inv stFailedReset :=
  ⟨c9_attempts_invariant.2.1 (.failure "boom") 100 stA
      (by unfold Inv JobInv; decide),
    c9_attempts_invariant.2.2.1 stFailed stFailedReset 1 50
      (by unfold Inv JobInv; decide) rfl⟩

/-- C5: cache behaviour of `generateComponent`. With no entry for the
prompt, the call hits the provider and returns its reported token count
(nonzero whenever the provider reports any usage, as hypothesised),
inserting the text into the cache. A repeat call within the 3600000 ms
TTL window is served from the cache with `tokensUsed = 0` and code
identical to the first result, whatever the provider would return — it
is not consulted. A repeat once the TTL has elapsed since the entry was
inserted misses the stale entry and incurs the provider's nonzero token
count again. -/
theorem c5_generation_cache_ttl :
    ∀ (cache0 : Cache) (p t1 t2 : String) (i1 o1 i2 o2 n1 n2 n3 : Nat),
      cacheGet cache0 p = none →
      0 < i1 + o1 → 0 < i2 + o2 →
      n2 - n1 < 3600000 →
      3600000 ≤ n3 - n1 →
      (generateComponent (.ok ⟨.text t1, i1, o1⟩) n1 cache0 p
          = .ok (cacheSweep (cacheSet cache0 p ⟨t1, n1⟩) n1,
              ⟨t1, i1 + o1⟩) ∧ 0 < i1 + o1) ∧
      (∀ prov2, generateComponent prov2 n2
            (cacheSweep (cacheSet cache0 p ⟨t1, n1⟩) n1) p
          = .ok (cacheSweep (cacheSet cache0 p ⟨t1, n1⟩) n1, ⟨t1, 0⟩)) ∧
      (generateComponent (.ok ⟨.text t2, i2, o2⟩) n3
            (cacheSweep (cacheSet cache0 p ⟨t1, n1⟩) n1) p
          = .ok (cacheSweep (cacheSet
                (cacheSweep (cacheSet cache0 p ⟨t1, n1⟩) n1) p ⟨t2, n3⟩) n3,
              ⟨t2, i2 + o2⟩) ∧ 0 < i2 + o2) := by
  intro cache0 p t1 t2 i1 o1 i2 o2 n1 n2 n3 h0 htok1 htok2 hfresh hstale
  have hc1 : cacheGet (cacheSweep (cacheSet cache0 p ⟨t1, n1⟩) n1) p
      = some ⟨t1, n1⟩ := by
    rw [cacheGet_after_insert h0]
    simp
  refine ⟨⟨?_, htok1⟩, ?_, ?_, htok2⟩
  · simp [generateComponent, h0, generateComponent.generateComponentCall]
  · intro prov2
    simp [generateComponent, hc1, hfresh]
  · have hns : ¬ n3 - n1 < 3600000 := Nat.not_lt.mpr hstale
    simp [generateComponent, hc1, hns,
      generateComponent.generateComponentCall]

/-- C5 witness: the theorem at concrete inputs; the within-TTL repeat is
instantiated with a rejecting provider to exhibit that the cache hit
never reaches the provider. -/
theorem c5_generation_cache_ttl_witness :
    (generateComponent (.ok ⟨.text "codeA", 10, 5⟩) 0 [] "button"
        = .ok (cacheSweep (cacheSet [] "button" ⟨"codeA", 0⟩) 0,
            ⟨"codeA", 15⟩) ∧ (0 : Nat) < 15) ∧
      generateComponent (.err "down") 10
          (cacheSweep (cacheSet [] "button" ⟨"codeA", 0⟩) 0) "button"
        = .ok (cacheSweep (cacheSet [] "button" ⟨"codeA", 0⟩) 0,
            ⟨"codeA", 0⟩) ∧
      (generateComponent (.ok ⟨.text "codeB", 7, 8⟩) 3600000
          (cacheSweep (cacheSet [] "button" ⟨"codeA", 0⟩) 0) "button"
        = .ok (cacheSweep (cacheSet
              (cacheSweep (cacheSet [] "button" ⟨"codeA", 0⟩) 0) "button"
              ⟨"codeB", 3600000⟩) 3600000, ⟨"codeB", 15⟩) ∧ (0 : Nat) < 15) := by
  have h := c5_generation_cache_ttl [] "button" "codeA" "codeB" 10 5 7 8 0 10
    3600000 rfl (by decide) (by decide) (by decide) (by decide)
  exact ⟨h.1, h.2.1 (.err "down"), h.2.2⟩

/-- C10: `validateComponent` reports `valid = false` exactly when the
first content block is text whose lowercasing contains `"issue"` or
`"error"` as a contiguous substring; in that case `issues` is the
singleton holding the whole text, and whenever `valid = true` —
including for a non-text block — `issues` is empty. -/
theorem c10_validate_component_issue_detection :
    ∀ c : Content,
      ((validateComponent c).valid = false ↔
        ∃ t pre post, c = .text t ∧
          (lowerChars t = pre ++ "issue".data ++ post ∨
            lowerChars t = pre ++ "error".data ++ post)) ∧
      (∀ t, c = .text t → (validateComponent c).valid = false →
        (validateComponent c).issues = [t]) ∧
      ((validateComponent c).valid = true →
        (validateComponent c).issues = []) := by
  intro c
  cases c with
  | other =>
    refine ⟨?_, ?_, ?_⟩
    · simp [validateComponent]
    · intro t ht
      cases ht
    · intro _
      rfl
  | text t =>
    refine ⟨?_, ?_, ?_⟩
    · constructor
      · intro h
        have hb : containsSub (lowerChars t) "issue".data = false →
            containsSub (lowerChars t) "error".data = true := by
          simpa [validateComponent] using h
        by_cases h1 : containsSub (lowerChars t) "issue".data = true
        · rcases containsSub_iff.mp h1 with ⟨pre, post, hp⟩
          exact ⟨t, pre, post, rfl, Or.inl hp⟩
        · have h1f : containsSub (lowerChars t) "issue".data = false := by
            simpa using h1
          rcases containsSub_iff.mp (hb h1f) with ⟨pre, post, hp⟩
          exact ⟨t, pre, post, rfl, Or.inr hp⟩
      · rintro ⟨t2, pre, post, ht, hor⟩
        injection ht with he
        subst he
        rcases hor with hp | hp
        · have h1 : containsSub (lowerChars t) "issue".data = true :=
            containsSub_iff.mpr ⟨pre, post, hp⟩
          simp [validateComponent, h1]
        · have h1 : containsSub (lowerChars t) "error".data = true :=
            containsSub_iff.mpr ⟨pre, post, hp⟩
          simp [validateComponent, h1]
    · intro t2 ht hv
      injection ht with he
      subst he
      have hb : containsSub (lowerChars t) "issue".data = false →
          containsSub (lowerChars t) "error".data = true := by
        simpa [validateComponent] using hv
      by_cases h1 : containsSub (lowerChars t) "issue".data = true
      · simp [validateComponent, h1]
      · have h1f : containsSub (lowerChars t) "issue".data = false := by
          simpa using h1
        simp [validateComponent, h1f, hb h1f]
    · intro hv
      have hb : containsSub (lowerChars t) "issue".data = false ∧
          containsSub (lowerChars t) "error".data = false := by
        simpa [validateComponent] using hv
      simp [validateComponent, hb.1, hb.2]

/-- C10 witness: the theorem applied to a response text carrying
"Error" (invalid, whole text as the issue list) and the valid-case
conjunct applied to a clean text. -/
theorem c10_validate_component_issue_detection_witness :
    (validateComponent (.text "An Error occurred")).valid = false ∧
      (validateComponent (.text "An Error occurred")).issues
        = ["An Error occurred"] ∧
      (validateComponent (.text "all good")).issues = [] := by
  have h := c10_validate_component_issue_detection (.text "An Error occurred")
  have h2 := c10_validate_component_issue_detection (.text "all good")
  have hv : (validateComponent (.text "An Error occurred")).valid = false :=
    h.1.mpr ⟨"An Error occurred", "an ".data, " occurred".data, rfl,
      Or.inr (by decide)⟩
  exact ⟨hv, h.2.1 "An Error occurred" rfl hv, h2.2.2 (by decide)⟩

end NocodeAI
